import Mathlib

/-!
Verification development for the pysubs3 subtitle library.

The Python sources are shallowly embedded as executable Lean definitions:
machine text is `List Char`, millisecond timestamps are `ℤ`, Python floats
appearing in time arithmetic are modelled as `ℚ`, and Python's `round`
(half-to-even differs from Mathlib's half-up only at exact ties, a
convention the project documentation leaves open) is modelled by `round`.
Fallible operations return `Option`/sum-like inductives.
-/

namespace Pysubs3

/-! ## Character classes (Python `str`/`re` helpers)

Python's `\s` and `\d` character classes, restricted to the ASCII range that
subtitle files use. -/

/-- Whitespace test matching Python's `\s` class (ASCII range). -/
def isWs (c : Char) : Bool :=
  c == ' ' || c == '\t' || c == '\n' || c == '\r' ||
  c == Char.ofNat 11 || c == Char.ofNat 12

/-- Digit test matching Python's `\d` class (ASCII range). -/
def isDig (c : Char) : Bool :=
  '0' ≤ c && c ≤ '9'

/-- Numeric value of a decimal digit character. -/
def digitVal (c : Char) : ℕ := c.toNat - '0'.toNat

/-- Value of a decimal digit string, as Python's `int()` on a digit string
(`digitsToNat [] = 0`, a case the sources never reach). -/
def digitsToNat (l : List Char) : ℕ :=
  l.foldl (fun acc c => 10 * acc + digitVal c) 0

/-- Python `str.strip()`: remove leading and trailing whitespace. -/
def pyStrip (l : List Char) : List Char :=
  ((l.dropWhile isWs).reverse.dropWhile isWs).reverse

/-- Python `str.strip(c)` for a single character argument. -/
def pyStripChar (c : Char) (l : List Char) : List Char :=
  ((l.dropWhile (· == c)).reverse.dropWhile (· == c)).reverse

/-! ## TimeCodec (`pysubs3/time.py`) -/

/-- Embedding of `times_to_ms` (`time.py`): fold hours, minutes, seconds
into milliseconds and round to an integer. -/
def times_to_ms (h m s ms : ℚ) : ℤ :=
  round (ms + s * 1000 + m * 60000 + h * 3600000)

/-- Integer core of `ms_to_times` (`time.py`): the chain of `divmod` calls.
Python's `divmod` with a positive divisor is floor division, i.e. `ediv`/`emod`. -/
def msToTimesInt (ms : ℤ) : ℤ × ℤ × ℤ × ℤ :=
  let h := ms / 3600000
  let r1 := ms % 3600000
  let m := r1 / 60000
  let r2 := r1 % 60000
  let s := r2 / 1000
  let msp := r2 % 1000
  (h, m, s, msp)

/-- Embedding of `ms_to_times` (`time.py`): `int(round(ms))` then divmod chain. -/
def ms_to_times (ms : ℚ) : ℤ × ℤ × ℤ × ℤ :=
  msToTimesInt (round ms)

/-- Embedding of the generic `timestamp_to_ms` (`time.py`): with four groups
the fractional group is scaled by `10 ^ (3 - len(groups[-1]))`; with three
groups the fraction is 0; then seconds, minutes, hours are added in.
Groups are digit strings; any other group count raises `ValueError` (`none`). -/
def timestamp_to_ms (groups : List (List Char)) : Option ℤ :=
  match groups with
  | [h, m, s, frac] =>
      some ((digitsToNat frac : ℤ) * (10 : ℤ) ^ (3 - frac.length) +
        (digitsToNat s : ℤ) * 1000 + (digitsToNat m : ℤ) * 60000 +
        (digitsToNat h : ℤ) * 3600000)
  | [h, m, s] =>
      some ((digitsToNat s : ℤ) * 1000 + (digitsToNat m : ℤ) * 60000 +
        (digitsToNat h : ℤ) * 3600000)
  | _ => none

/-! ## WebVTT timestamp reading (`pysubs3/webvtt.py`) -/

/-- Embedding of `WebVTTFormat.timestamp_to_ms` (`webvtt.py`): the optional
hours group (captured together with its trailing colon by the pattern) is
stripped of colons and read as an integer — a missing/empty group means 0 —
and the minute, second and fractional groups are converted with `int` and
handed to `make_time` as raw values: the 2-or-3-digit fractional group is
used as a plain millisecond count with no scaling. -/
def webvtt_timestamp_to_ms (hGroup : Option (List Char)) (m s frac : List Char) : ℤ :=
  let h : ℕ := match hGroup with
    | none => 0
    | some hg => digitsToNat (pyStripChar ':' hg)
  times_to_ms (h : ℚ) (digitsToNat m : ℚ) (digitsToNat s : ℚ) (digitsToNat frac : ℚ)

/-! ## Timestamp stringifiers (`pysubs3/subrip.py`, `pysubs3/webvtt.py`) -/

/-- Embedding of `MAX_REPRESENTABLE_TIME` (`subrip.py`): `make_time(h=100) - 1`,
the largest timestamp SubRip can render, 99:59:59,999. -/
def MAX_REPRESENTABLE_TIME : ℤ := times_to_ms 100 0 0 0 - 1

/-- Python's `f"{n:0wd}"`: decimal digits left-padded with zeros to `width`. -/
def natPad (width n : ℕ) : List Char :=
  let d := Nat.toDigits 10 n
  List.replicate (width - d.length) '0' ++ d

/-- Layout `HH:MM:SS,mmm` of a normalized time tuple, as in
`SubripFormat.ms_to_timestamp`. -/
def renderSrtTimestamp (t : ℤ × ℤ × ℤ × ℤ) : List Char :=
  natPad 2 t.1.toNat ++ [':'] ++ natPad 2 t.2.1.toNat ++ [':'] ++
    natPad 2 t.2.2.1.toNat ++ [','] ++ natPad 3 t.2.2.2.toNat

/-- Embedding of `SubripFormat.ms_to_timestamp` (`subrip.py`): negative
values are replaced by 0; values above `MAX_REPRESENTABLE_TIME` trigger a
`RuntimeWarning` (the `Bool` component) and are replaced by the maximum;
the result is rendered `HH:MM:SS,mmm`. -/
def ms_to_timestamp_srt (ms : ℤ) : List Char × Bool :=
  let ms1 := if ms < 0 then 0 else ms
  let warned := decide (MAX_REPRESENTABLE_TIME < ms1)
  let clamped := if MAX_REPRESENTABLE_TIME < ms1 then MAX_REPRESENTABLE_TIME else ms1
  (renderSrtTimestamp (msToTimesInt clamped), warned)

/-- Embedding of `WebVTTFormat.ms_to_timestamp` (`webvtt.py`): the SubRip
string with every `','` replaced by `'.'`. -/
def ms_to_timestamp_vtt (ms : ℤ) : List Char × Bool :=
  let r := ms_to_timestamp_srt ms
  (r.1.map (fun c => if c == ',' then '.' else c), r.2)

/-! ## Frame/millisecond conversion

The `Timestamps` class (`pysubs3/timestamps.py`) that `time.frames_to_ms`
and `time.ms_to_frames` delegate to is not present under `src/`; the frame
table is therefore modelled from the spec (§3 FrameTable, §4.1 TimeCodec). -/

/-- Modelled from the spec: the START/END boundary semantics selector
(`TimeType` of the missing `pysubs3/timestamps.py`). -/
inductive TimeType where
  | START
  | END
  deriving DecidableEq, Repr

/-- Modelled from the spec: the constant-rate frame table built by
`Timestamps.from_fps` (missing `pysubs3/timestamps.py`). The first
millisecond of frame `f` at a constant rate `fps` is `f * (1000 / fps)`
rounded to an integer; constant-rate tables extrapolate arbitrarily far. -/
def frameBoundary (fps : ℚ) (f : ℤ) : ℤ :=
  round ((f : ℚ) * (1000 / fps))

/-- Modelled from the spec: `frames_to_ms` (`time.py` delegates to the
missing `Timestamps.frames_to_ms`). START returns the first millisecond of
the frame; END returns the last millisecond before the next frame starts,
`frameToMs(f+1, START) - 1`. -/
def frames_to_ms (f : ℤ) (fps : ℚ) : TimeType → ℤ
  | .START => frameBoundary fps f
  | .END => frameBoundary fps (f + 1) - 1

/-- Modelled from the spec: the START half of `Timestamps.ms_to_frames` —
the frame containing `ms`, i.e. the greatest `f` with
`frameBoundary fps f ≤ ms` (floor behaviour against frame boundaries),
here in closed form (see `le_msToFrameStart_iff`). -/
def msToFrameStart (ms : ℤ) (fps : ℚ) : ℤ :=
  ⌈(2 * (ms : ℚ) + 1) / (2 * (1000 / fps))⌉ - 1

/-- Modelled from the spec: `ms_to_frames` (`time.py` delegates to the
missing `Timestamps.ms_to_frames`). For START, the frame containing `ms`;
for END, a timestamp exactly on a frame boundary is attributed to the frame
before that boundary (index − 1), otherwise the same floor behaviour. -/
def ms_to_frames (ms : ℤ) (fps : ℚ) : TimeType → ℤ
  | .START => msToFrameStart ms fps
  | .END =>
      let f := msToFrameStart ms fps
      if frameBoundary fps f = ms then f - 1 else f

/-! ## Format autodetection (`pysubs3/formats.py`) -/

/-- Outcome of `autodetect_format`: a format identifier, or one of the two
`FormatAutodetectionError` cases — "No suitable formats", or "Multiple
suitable formats" carrying the candidate identifiers of the message. -/
inductive AutodetectResult where
  | ok (fmt : String)
  | noSuitable
  | multipleSuitable (candidates : List String)
  deriving DecidableEq, Repr

/-- Embedding of `autodetect_format` (`formats.py`): every registered format
class contributes `guess_format(content)` (an `Option String` here); the
positive guesses are collected into a set (a deduplicated list); a singleton
set yields its element, an empty set and a larger set raise the two
`FormatAutodetectionError` variants. -/
def autodetect_format (guesses : List (Option String)) : AutodetectResult :=
  let formats := (guesses.filterMap id).dedup
  match formats with
  | [f] => .ok f
  | [] => .noSuitable
  | _ => .multipleSuitable formats

/-! ## SubRip format detection (`pysubs3/subrip.py`, `guess_format`)

`SubripFormat.guess_format` counts, per line, the matches of the `TIMESTAMP`
pattern `(\d{1,2}):(\d{1,2}):(\d{1,2})[.,](\d{1,3})` (`time.py`). The
pattern's greedy quantifiers are deterministic here because a digit can
never satisfy the follow-up literal, so a match attempt at a position takes
up to `max` leading digits and then requires the separator. -/

/-- One `\d{1,maxN}` group: take up to `maxN` leading digits, at least one;
returns the digits and the rest of the input. -/
def expectDigits (maxN : ℕ) (s : List Char) : Option (List Char × List Char) :=
  let g := (s.takeWhile isDig).take maxN
  if g.isEmpty then none else some (g, s.drop g.length)

/-- Attempt of the `TIMESTAMP` pattern anchored at the start of `s`; on
success, the remaining input after the match (Python's `re` continues a
`findall` scan there). -/
def matchTimestampAt (s : List Char) : Option (List Char) :=
  match expectDigits 2 s with
  | none => none
  | some (_, r1) =>
    match r1 with
    | [] => none
    | c1 :: r2 =>
      if c1 == ':' then
        match expectDigits 2 r2 with
        | none => none
        | some (_, r3) =>
          match r3 with
          | [] => none
          | c2 :: r4 =>
            if c2 == ':' then
              match expectDigits 2 r4 with
              | none => none
              | some (_, r5) =>
                match r5 with
                | [] => none
                | c3 :: r6 =>
                  if c3 == '.' || c3 == ',' then
                    match expectDigits 3 r6 with
                    | none => none
                    | some (_, r7) => some r7
                  else none
            else none
      else none

/-- Scan loop of `re.findall` counting non-overlapping `TIMESTAMP` matches:
try each position left to right, jumping over a found match. Each step
consumes at least one character, so the input length is enough fuel. -/
def countTSGo : ℕ → List Char → ℕ
  | 0, _ => 0
  | _, [] => 0
  | fuel + 1, c :: rest =>
    match matchTimestampAt (c :: rest) with
    | some r => 1 + countTSGo fuel r
    | none => countTSGo fuel rest

/-- Number of `TIMESTAMP` matches in a line: `len(TIMESTAMP.findall(line))`. -/
def countTimestampMatches (s : List Char) : ℕ :=
  countTSGo s.length s

/-- Python `str.splitlines()` worker over the line breaks subtitle files
use (`\n`, `\r\n`, `\r`); the current line is accumulated reversed. -/
def splitlinesGo : List Char → List Char → List (List Char)
  | [], cur => if cur.isEmpty then [] else [cur.reverse]
  | '\r' :: '\n' :: rest, cur => cur.reverse :: splitlinesGo rest []
  | '\r' :: rest, cur => cur.reverse :: splitlinesGo rest []
  | '\n' :: rest, cur => cur.reverse :: splitlinesGo rest []
  | c :: rest, cur => splitlinesGo rest (c :: cur)

/-- Python `str.splitlines()`: no trailing empty line for a final break. -/
def splitlines (s : List Char) : List (List Char) :=
  splitlinesGo s []

/-- Python's `needle in hay` substring test. -/
def containsSub : List Char → List Char → Bool
  | needle, [] => needle.isEmpty
  | needle, c :: rest => needle.isPrefixOf (c :: rest) || containsSub needle rest

/-- Embedding of `SubripFormat.guess_format` (`subrip.py`): disqualify on
SubStation section markers, then on a leading `WEBVTT` after `lstrip`,
otherwise answer `"srt"` iff some line holds exactly two `TIMESTAMP`
matches. -/
def guess_format_srt (text : List Char) : Option String :=
  if containsSub ("[Script Info]".toList) text ||
      containsSub ("[V4+ Styles]".toList) text then
    none
  else if ("WEBVTT".toList).isPrefixOf (text.dropWhile isWs) then
    none
  else if (splitlines text).any (fun line => countTimestampMatches line == 2) then
    some "srt"
  else
    none

/-! ## SubRip writer (`pysubs3/subrip.py`, `SubripFormat.to_file`)

The writer resolves each event's text into styled runs with
`substation.parse_tags`, which is not present under `src/`; a writer event
therefore carries the run sequence directly (spec §3 StyledRun: the
TagParser output of (text span, resolved style) pairs). -/

/-- Modelled from the spec: the load-bearing `SSAStyle` attributes
(`pysubs3/ssastyle.py` is not under `src/`; spec §3 StyleState names
italic, underline, strikeout and drawing). -/
structure SSAStyle where
  italic : Bool := false
  underline : Bool := false
  strikeout : Bool := false
  drawing : Bool := false
  deriving DecidableEq, Repr

/-- A writer event: timestamps, comment flag, and — `Modelled from the
spec:` because `substation.parse_tags` is missing from `src/` — the
StyledRun sequence that `parse_tags(text, style, styles)` yields for the
event's text (spec §3 StyledRun, §4.2 TagParser). -/
structure WriterEvent where
  start : ℤ
  «end» : ℤ
  isComment : Bool
  runs : List (List Char × SSAStyle)

/-- The styling wrap of `prepare_text` in `SubripFormat.to_file`: italic,
then underline, then strikeout, each wrapping outward, applied only when
`apply_styles` is set. -/
def applyStyleWrap (applyStyles : Bool) (frag : List Char) (sty : SSAStyle) : List Char :=
  if applyStyles then
    let f1 := if sty.italic then "<i>".toList ++ frag ++ "</i>".toList else frag
    let f2 := if sty.underline then "<u>".toList ++ f1 ++ "</u>".toList else f1
    if sty.strikeout then "<s>".toList ++ f2 ++ "</s>".toList else f2
  else frag

/-- The run loop of `prepare_text` in `SubripFormat.to_file`: wrap each
fragment, but raise `ContentNotUsable` (`none`) on a drawing run — which
abandons the whole body. -/
def collectBody (applyStyles : Bool) :
    List (List Char × SSAStyle) → Option (List (List Char))
  | [] => some []
  | (frag, sty) :: rest =>
    let f := applyStyleWrap applyStyles frag sty
    if sty.drawing then none
    else
      match collectBody applyStyles rest with
      | none => none
      | some l => some (f :: l)

/-- Python `re.sub(r"\n+", "\n", s)`: collapse newline runs. -/
def collapseNewlines : List Char → List Char
  | [] => []
  | '\n' :: rest => '\n' :: collapseNewlines (rest.dropWhile (· == '\n'))
  | c :: rest => c :: collapseNewlines rest
  termination_by l => l.length
  decreasing_by
  · exact Nat.lt_succ_of_le (List.dropWhile_sublist _).length_le
  · exact Nat.lt_succ_self _

/-- Embedding of `prepare_text` in `SubripFormat.to_file` (`subrip.py`),
for `keep_ssa_tags=False`: process the runs, then join, strip and collapse
newlines; `none` is the `ContentNotUsable` exception. (The `\h`/`\n`
whitespace substitutions happen on the raw text before tag parsing and are
inside the runs here.) -/
def writer_prepare_text (applyStyles : Bool)
    (runs : List (List Char × SSAStyle)) : Option (List Char) :=
  match collectBody applyStyles runs with
  | none => none
  | some frags => some (collapseNewlines (pyStrip frags.flatten))

/-- Sequential 1-based numbering used by the writer loop. -/
def numberFrom {α : Type} (n : ℕ) : List α → List (ℕ × α)
  | [] => []
  | a :: l => (n, a) :: numberFrom (n + 1) l

/-- The writer loop of `SubripFormat.to_file`: emit each event whose text
prepares successfully as (number, start, end, text), catching
`ContentNotUsable` by skipping the event; the number advances only on
emitted events. -/
def writeLinesGo (applyStyles : Bool) (n : ℕ) :
    List WriterEvent → List (ℕ × List Char × List Char × List Char)
  | [] => []
  | e :: rest =>
    match writer_prepare_text applyStyles e.runs with
    | none => writeLinesGo applyStyles n rest
    | some t =>
        (n, (ms_to_timestamp_srt e.start).1, (ms_to_timestamp_srt e.«end»).1, t) ::
          writeLinesGo applyStyles (n + 1) rest

/-- Embedding of `SubripFormat.to_file` (`subrip.py`): keep the visible
(non-comment) lines, then run the numbered writer loop from 1. -/
def srt_to_file (applyStyles : Bool) (events : List WriterEvent) :
    List (ℕ × List Char × List Char × List Char) :=
  writeLinesGo applyStyles 1 (events.filter (fun e => !e.isComment))

/-- A concrete writer event with one plain-text run and one drawing run. -/
def demoDrawingEvent : WriterEvent :=
  ⟨0, 1000, false, [(['a'], {}), ([], { drawing := true })]⟩

/-! ## SubRip reader text massaging (`pysubs3/subrip.py`, `prepare_text`
inside `SubripFormat.from_file`) -/

/-- Python `re.match(r"\s*$", line)`: the line is whitespace only. -/
def isWsLine (l : List Char) : Bool := l.all isWs

/-- Python `re.match(r"\s*\d+\s*$", line)`: optional whitespace, at least
one digit, optional whitespace (`$` also matches before a trailing newline,
which is itself `\s`, so the pattern is exactly this shape). -/
def isBareNumberLine (l : List Char) : Bool :=
  let r1 := l.dropWhile isWs
  !(r1.takeWhile isDig).isEmpty && (r1.dropWhile isDig).all isWs

/-- The special-case test of `prepare_text`: at least two collected lines,
all of them blank except the last, which is a bare number. -/
def emptyCaseB (lines : List (List Char)) : Bool :=
  decide (2 ≤ lines.length) && lines.dropLast.all isWsLine &&
    (match lines.getLast? with
     | some l => isBareNumberLine l
     | none => false)

/-- Python `re.sub(r"\n+ *\d+ *$", "", s)` for this anchored pattern: if the
string ends in newlines, then spaces, then at least one digit, then spaces,
the leftmost such match — which absorbs the whole trailing newline run — is
removed; otherwise the string is unchanged. Implemented by peeling the
pattern off the reversed string. -/
def stripTrailingNumber (s : List Char) : List Char :=
  let r := s.reverse
  let r1 := r.dropWhile (· == ' ')
  if (r1.takeWhile isDig).isEmpty then s
  else
    let r2 := r1.dropWhile isDig
    let r3 := r2.dropWhile (· == ' ')
    if (r3.takeWhile (· == '\n')).isEmpty then s
    else (r3.dropWhile (· == '\n')).reverse

/-- Shape of the trailing next-entry-sequence-number artifact: the string
ends in one or more newlines, then spaces, then at least one digit, then
spaces — exactly what `re.sub(r"\n+ *\d+ *$", "", s)` can remove. -/
def hasTrailingNumberArtifact (s : List Char) : Prop :=
  ∃ p n a d b2, s = p ++ n ++ a ++ d ++ b2 ∧ n ≠ [] ∧ (∀ c ∈ n, c = '\n') ∧
    (∀ c ∈ a, c = ' ') ∧ d ≠ [] ∧ (∀ c ∈ d, isDig c = true) ∧ (∀ c ∈ b2, c = ' ')

/-- Embedding of `prepare_text` in `SubripFormat.from_file` (`subrip.py`):
the degenerate blank-lines-then-number body becomes the empty string; any
other body is joined, whitespace-trimmed, and has the trailing
next-entry-number artifact removed. The third-party HTML stripping that
follows (BeautifulSoup, an out-of-scope collaborator per the spec) is the
identity here, i.e. this is the `keep_html_tags=True` path. -/
def reader_prepare_text (lines : List (List Char)) : List Char :=
  if emptyCaseB lines then []
  else stripTrailingNumber (pyStrip lines.flatten)

/-! ## SSAEvent (`pysubs3/ssaevent.py`) -/

/-- Embedding of the `SSAEvent` dataclass: one subtitle line with all of its
fields. Python's `language: str = None` is an `Option String`. -/
structure SSAEvent where
  start : ℤ := 0
  «end» : ℤ := 10000
  text : String := ""
  marked : Bool := false
  layer : ℤ := 0
  style : String := "Default"
  name : String := ""
  marginl : ℤ := 0
  marginr : ℤ := 0
  marginv : ℤ := 0
  effect : String := ""
  type : String := "Dialogue"
  language : Option String := none
  deriving DecidableEq, Repr

/-- Embedding of `SSAEvent.__eq__`: equality of the `(start, end)` pair only. -/
def eventEqOp (a b : SSAEvent) : Bool :=
  a.start == b.start && a.«end» == b.«end»

/-- Embedding of `SSAEvent.__ne__`. -/
def eventNeOp (a b : SSAEvent) : Bool :=
  a.start != b.start || a.«end» != b.«end»

/-- Embedding of `SSAEvent.__lt__`: Python tuple comparison
`(self.start, self.end) < (other.start, other.end)`. -/
def eventLtOp (a b : SSAEvent) : Bool :=
  a.start < b.start || (a.start == b.start && a.«end» < b.«end»)

/-- Embedding of `SSAEvent.__le__`. -/
def eventLeOp (a b : SSAEvent) : Bool :=
  a.start < b.start || (a.start == b.start && a.«end» ≤ b.«end»)

/-- Embedding of `SSAEvent.__gt__`. -/
def eventGtOp (a b : SSAEvent) : Bool :=
  a.start > b.start || (a.start == b.start && a.«end» > b.«end»)

/-- Embedding of `SSAEvent.__ge__`. -/
def eventGeOp (a b : SSAEvent) : Bool :=
  a.start > b.start || (a.start == b.start && a.«end» ≥ b.«end»)

/-- Embedding of `SSAEvent.equals`: `as_dict() == as_dict()`, i.e. every
field of the dataclass compared. -/
def eventEquals (a b : SSAEvent) : Bool :=
  a.start == b.start && a.«end» == b.«end» && a.text == b.text &&
  a.marked == b.marked && a.layer == b.layer && a.style == b.style &&
  a.name == b.name && a.marginl == b.marginl && a.marginr == b.marginr &&
  a.marginv == b.marginv && a.effect == b.effect && a.type == b.type &&
  a.language == b.language

/-- Embedding of the time-based branch of `SSAEvent.shift` (no frames/fps):
`delta = make_time(h, m, s, ms)` (which is `times_to_ms` here), added to both
endpoints, each then clamped with `max(_, 0)`. -/
def shiftEvent (e : SSAEvent) (h m s ms : ℚ) : SSAEvent :=
  let delta := times_to_ms h m s ms
  { e with start := max (e.start + delta) 0, «end» := max (e.«end» + delta) 0 }

/-! ## Theorems -/

/-- Helper: `times_to_ms` on integer arguments is the exact integer
combination (the `round` is the identity there). -/
theorem times_to_ms_int (h m s ms : ℤ) :
    times_to_ms (h : ℚ) (m : ℚ) (s : ℚ) (ms : ℚ) =
      ms + s * 1000 + m * 60000 + h * 3600000 := by
  unfold times_to_ms
  rw [show ((ms : ℚ) + (s : ℚ) * 1000 + (m : ℚ) * 60000 + (h : ℚ) * 3600000)
      = ((ms + s * 1000 + m * 60000 + h * 3600000 : ℤ) : ℚ) by push_cast; ring,
    round_intCast]

/-- Helper: the numeric value of `MAX_REPRESENTABLE_TIME`, i.e. 99:59:59,999. -/
theorem MAX_REPRESENTABLE_TIME_val : MAX_REPRESENTABLE_TIME = 359999999 := by
  have h := times_to_ms_int 100 0 0 0
  norm_num at h
  unfold MAX_REPRESENTABLE_TIME
  norm_num [h]

/-- Helper: `msToFrameStart` is the greatest frame whose boundary is at or
before `ms` — the Galois-style characterization of "the frame containing
`ms`" for a positive frame rate. -/
theorem le_msToFrameStart_iff (ms f : ℤ) (fps : ℚ) (hfps : 0 < fps) :
    f ≤ msToFrameStart ms fps ↔ frameBoundary fps f ≤ ms := by
  have hd : (0 : ℚ) < 1000 / fps := by positivity
  unfold msToFrameStart frameBoundary
  rw [round_eq]
  constructor
  · intro hle
    have h1 : f < ⌈(2 * (ms : ℚ) + 1) / (2 * (1000 / fps))⌉ := by omega
    have h2 : (f : ℚ) < (2 * (ms : ℚ) + 1) / (2 * (1000 / fps)) := Int.lt_ceil.mp h1
    have h3 : (f : ℚ) * (2 * (1000 / fps)) < 2 * (ms : ℚ) + 1 :=
      (lt_div_iff₀ (by positivity)).mp h2
    have h4 : ⌊(f : ℚ) * (1000 / fps) + 1 / 2⌋ < ms + 1 :=
      Int.floor_lt.mpr (by push_cast; linarith)
    omega
  · intro hle
    have h2 := Int.lt_floor_add_one ((f : ℚ) * (1000 / fps) + 1 / 2)
    have h3 : (⌊(f : ℚ) * (1000 / fps) + 1 / 2⌋ : ℚ) ≤ (ms : ℚ) := by exact_mod_cast hle
    have h4 : (f : ℚ) < (2 * (ms : ℚ) + 1) / (2 * (1000 / fps)) := by
      rw [lt_div_iff₀ (by positivity)]
      nlinarith
    have h5 : f < ⌈(2 * (ms : ℚ) + 1) / (2 * (1000 / fps))⌉ := Int.lt_ceil.mpr h4
    omega

/-- Helper: when each frame spans at least `k` milliseconds
(`k ≤ 1000 / fps`), consecutive frame boundaries are at least `k` apart. -/
theorem frameBoundary_gap (fps : ℚ) (k : ℤ) (hk : (k : ℚ) ≤ 1000 / fps) (f : ℤ) :
    frameBoundary fps f + k ≤ frameBoundary fps (f + 1) := by
  unfold frameBoundary
  rw [round_eq, round_eq]
  have h1 : (f : ℚ) * (1000 / fps) + 1 / 2 + k ≤ ((f + 1 : ℤ) : ℚ) * (1000 / fps) + 1 / 2 := by
    push_cast
    nlinarith
  have h2 := Int.floor_mono h1
  rw [Int.floor_add_int] at h2
  exact h2

/-- C5 (amended): with a positive constant frame rate of at most 500 fps
(each frame spans at least 2 ms) the conversion of a non-negative frame
index to milliseconds and back is the identity for both START and END
boundary semantics; for START semantics alone, any rate up to 1000 fps
suffices. (For faster rates the END round-trip can fail, see the
counterexample at 1000 fps.) -/
theorem frame_ms_roundtrip (f : ℤ) (fps : ℚ) (_hf : 0 ≤ f) (hfps : 0 < fps) :
    (fps ≤ 1000 → ms_to_frames (frames_to_ms f fps TimeType.START) fps TimeType.START = f) ∧
    (fps ≤ 500 → ∀ tt, ms_to_frames (frames_to_ms f fps tt) fps tt = f) := by
  have hstart : 1 ≤ 1000 / fps →
      ms_to_frames (frames_to_ms f fps TimeType.START) fps TimeType.START = f := by
    intro hd1
    simp only [frames_to_ms, ms_to_frames]
    have hge : f ≤ msToFrameStart (frameBoundary fps f) fps :=
      (le_msToFrameStart_iff _ _ _ hfps).mpr le_rfl
    have hlt : ¬ (f + 1 ≤ msToFrameStart (frameBoundary fps f) fps) := by
      intro hcon
      have := (le_msToFrameStart_iff (frameBoundary fps f) (f + 1) fps hfps).mp hcon
      have := frameBoundary_gap fps 1 (by exact_mod_cast hd1) f
      omega
    omega
  refine ⟨fun hle => hstart ((le_div_iff₀ hfps).mpr (by linarith)), fun hle tt => ?_⟩
  have hd2 : (2 : ℚ) ≤ 1000 / fps := (le_div_iff₀ hfps).mpr (by linarith)
  cases tt with
  | START => exact hstart (by linarith)
  | END =>
    simp only [frames_to_ms, ms_to_frames]
    have hgap := frameBoundary_gap fps 2 hd2 f
    have hs : msToFrameStart (frameBoundary fps (f + 1) - 1) fps = f := by
      have hge : f ≤ msToFrameStart (frameBoundary fps (f + 1) - 1) fps :=
        (le_msToFrameStart_iff _ _ _ hfps).mpr (by omega)
      have hlt : ¬ (f + 1 ≤ msToFrameStart (frameBoundary fps (f + 1) - 1) fps) := by
        intro hcon
        have := (le_msToFrameStart_iff (frameBoundary fps (f + 1) - 1) (f + 1) fps hfps).mp hcon
        omega
      omega
    rw [hs]
    have hne : frameBoundary fps f ≠ frameBoundary fps (f + 1) - 1 := by omega
    simp [hne]

/-- Witness for C5 at frame 2, 25 fps, both boundary semantics. -/
theorem frame_ms_roundtrip_witness :
    ms_to_frames (frames_to_ms 2 25 TimeType.START) 25 TimeType.START = 2 ∧
    ms_to_frames (frames_to_ms 2 25 TimeType.END) 25 TimeType.END = 2 :=
  ⟨(frame_ms_roundtrip 2 25 (by norm_num) (by norm_num)).2 (by norm_num) TimeType.START,
   (frame_ms_roundtrip 2 25 (by norm_num) (by norm_num)).2 (by norm_num) TimeType.END⟩

/-- C5 counterexample to the claim as stated: at the positive constant rate
of 1000 fps (frame boundaries one millisecond apart) the END round-trip
fails at frame 0 — `frames_to_ms 0 END` is 0, which lies exactly on the
boundary of frame 0, so `ms_to_frames` attributes it to frame −1. -/
theorem frame_roundtrip_end_fails_at_1000fps :
    (0 : ℚ) < 1000 ∧ (0 : ℤ) ≤ 0 ∧
    ms_to_frames (frames_to_ms 0 1000 TimeType.END) 1000 TimeType.END = -1 ∧
    (-1 : ℤ) ≠ 0 := by
  have hb0 : frameBoundary 1000 0 = 0 := by norm_num [frameBoundary, round_eq]
  have hb1 : frameBoundary 1000 (0 + 1) = 1 := by norm_num [frameBoundary, round_eq]
  have hs : msToFrameStart 0 1000 = 0 := by
    unfold msToFrameStart
    norm_num
    rw [show ⌈(1 : ℚ) / 2⌉ = 1 from by rw [Int.ceil_eq_iff]; norm_num]
    norm_num
  refine ⟨by norm_num, le_rfl, ?_, by norm_num⟩
  simp only [frames_to_ms, ms_to_frames, hb1]
  norm_num [hs, hb0]

/-- Helper: a list deduplicates to a singleton exactly when it is nonempty
and all of its elements are that value. -/
theorem dedup_eq_singleton_iff {α : Type} [DecidableEq α] (l : List α) (f : α) :
    l.dedup = [f] ↔ (l ≠ [] ∧ ∀ x ∈ l, x = f) := by
  constructor
  · intro h
    have hf : f ∈ l := by
      have : f ∈ l.dedup := by simp [h]
      exact (List.mem_dedup.mp this)
    refine ⟨by rintro rfl; simp at hf, fun x hx => ?_⟩
    have : x ∈ l.dedup := List.mem_dedup.mpr hx
    simpa [h] using this
  · rintro ⟨hne, hall⟩
    induction l with
    | nil => exact absurd rfl hne
    | cons a t ih =>
      have ha : a = f := hall a (by simp)
      subst ha
      by_cases ht : t = []
      · subst ht
        simp
      · have hdt : t.dedup = [a] :=
          ih ht (fun x hx => hall x (List.mem_cons_of_mem _ hx))
        have hat : a ∈ t := by
          have : a ∈ t.dedup := by simp [hdt]
          exact List.mem_dedup.mp this
        rw [List.dedup_cons_of_mem hat, hdt]

/-- C3: `autodetect_format` collects the set of distinct positive guesses of
the registered format classes; it returns an identifier exactly when every
positive guess agrees on it (and there is at least one), reports "no
suitable format" exactly when there is no positive guess, and on any
"multiple suitable formats" outcome the reported candidate list contains at
least two distinct identifiers and exactly the positive guesses — it never
silently picks one of several candidates. -/
theorem autodetect_trichotomy (gs : List (Option String)) :
    (∀ f, autodetect_format gs = .ok f ↔
      (gs.filterMap id ≠ [] ∧ ∀ g ∈ gs.filterMap id, g = f)) ∧
    (autodetect_format gs = .noSuitable ↔ gs.filterMap id = []) ∧
    (∀ c, autodetect_format gs = .multipleSuitable c →
      (∃ g₁ ∈ c, ∃ g₂ ∈ c, g₁ ≠ g₂) ∧ (∀ x, x ∈ c ↔ x ∈ gs.filterMap id)) := by
  simp only [autodetect_format]
  rcases h : (gs.filterMap id).dedup with - | ⟨a, - | ⟨b, t⟩⟩
  · have hnil : gs.filterMap id = [] := (List.dedup_eq_nil _).mp h
    refine ⟨fun f => ?_, by simp [hnil], fun c hc => by cases hc⟩
    simp [hnil]
  · refine ⟨fun f => ?_, ?_, fun c hc => by cases hc⟩
    · rw [← dedup_eq_singleton_iff, h]
      constructor
      · rintro he
        cases he
        rfl
      · rintro he
        cases he
        rfl
    · constructor
      · rintro he
        cases he
      · intro he
        rw [he] at h
        simp at h
  · have hnodup := List.nodup_dedup (gs.filterMap id)
    rw [h] at hnodup
    refine ⟨fun f => ?_, ?_, fun c hc => ?_⟩
    · constructor
      · rintro he
        cases he
      · intro he
        have := (dedup_eq_singleton_iff _ f).mpr he
        rw [h] at this
        cases this
    · constructor
      · rintro he
        cases he
      · intro he
        rw [he] at h
        simp at h
    · cases hc
      have hab : a ≠ b := by
        intro hab
        subst hab
        simp at hnodup
      refine ⟨⟨a, by simp, b, by simp, hab⟩, fun x => ?_⟩
      rw [← h]
      exact List.mem_dedup

/-- Witness for C3: three guesses, two of them "srt", one negative, resolve
to the unique identifier. -/
theorem autodetect_trichotomy_witness :
    autodetect_format [some "srt", none, some "srt"] = .ok "srt" :=
  ((autodetect_trichotomy [some "srt", none, some "srt"]).1 "srt").mpr (by decide)

/-- Helper: whitespace characters are not digits. -/
theorem ws_not_dig (c : Char) (h : isWs c = true) : isDig c = false := by
  simp only [isWs, Bool.or_eq_true, beq_iff_eq] at h
  rcases h with ((((h | h) | h) | h) | h) | h <;> subst h <;> decide

/-- Helper: digits are not whitespace. -/
theorem dig_not_ws (c : Char) (h : isDig c = true) : isWs c = false := by
  cases hw : isWs c
  · rfl
  · rw [ws_not_dig c hw] at h
    cases h

/-- Helper: `dropWhile` jumps over a prefix all of whose elements satisfy
the predicate. -/
theorem dropWhile_append_of_all {α : Type} (p : α → Bool) (l1 l2 : List α)
    (h : ∀ c ∈ l1, p c = true) : (l1 ++ l2).dropWhile p = l2.dropWhile p := by
  induction l1 with
  | nil => rfl
  | cons a t ih =>
    simp only [List.cons_append, List.dropWhile_cons, h a (by simp), if_true]
    exact ih (fun c hc => h c (by simp [hc]))

/-- Helper: `takeWhile` keeps a prefix all of whose elements satisfy the
predicate and continues behind it. -/
theorem takeWhile_append_of_all {α : Type} (p : α → Bool) (l1 l2 : List α)
    (h : ∀ c ∈ l1, p c = true) : (l1 ++ l2).takeWhile p = l1 ++ l2.takeWhile p := by
  induction l1 with
  | nil => rfl
  | cons a t ih =>
    simp only [List.cons_append, List.takeWhile_cons, h a (by simp), if_true]
    rw [ih (fun c hc => h c (by simp [hc]))]

/-- Helper: `isBareNumberLine` recognizes exactly the strings of shape
whitespace, then at least one digit, then whitespace. -/
theorem isBareNumberLine_iff (l : List Char) :
    isBareNumberLine l = true ↔
    ∃ w1 dd w2, l = w1 ++ dd ++ w2 ∧ (∀ c ∈ w1, isWs c = true) ∧ dd ≠ [] ∧
      (∀ c ∈ dd, isDig c = true) ∧ (∀ c ∈ w2, isWs c = true) := by
  constructor
  · intro h
    simp only [isBareNumberLine, Bool.and_eq_true, Bool.not_eq_true',
      List.all_eq_true] at h
    obtain ⟨h1, h2⟩ := h
    refine ⟨l.takeWhile isWs, (l.dropWhile isWs).takeWhile isDig,
      (l.dropWhile isWs).dropWhile isDig, ?_,
      fun c hc => List.mem_takeWhile_imp hc, ?_,
      fun c hc => List.mem_takeWhile_imp hc, h2⟩
    · rw [List.append_assoc, List.takeWhile_append_dropWhile,
        List.takeWhile_append_dropWhile]
    · intro he
      rw [he] at h1
      cases h1
  · rintro ⟨w1, dd, w2, rfl, hw1, hdd, hdig, hw2⟩
    simp only [isBareNumberLine, Bool.and_eq_true, Bool.not_eq_true',
      List.all_eq_true]
    have e1 : (w1 ++ dd ++ w2).dropWhile isWs = dd ++ w2 := by
      rw [List.append_assoc, dropWhile_append_of_all isWs w1 (dd ++ w2) hw1]
      cases dd with
      | nil => exact absurd rfl hdd
      | cons a t =>
        simp [List.dropWhile_cons, dig_not_ws a (hdig a (by simp))]
    rw [e1, takeWhile_append_of_all isDig dd w2 hdig,
      dropWhile_append_of_all isDig dd w2 hdig]
    refine ⟨?_, fun c hc => hw2 c ((List.dropWhile_sublist _).mem hc)⟩
    cases dd with
    | nil => exact absurd rfl hdd
    | cons a t => simp

/-- Helper: the degenerate-body test spelled out — at least two lines, all
blank but the last, which is whitespace + digits + whitespace. -/
theorem emptyCaseB_iff (lines : List (List Char)) :
    emptyCaseB lines = true ↔
    (2 ≤ lines.length ∧ (∀ l ∈ lines.dropLast, ∀ c ∈ l, isWs c = true) ∧
     ∃ last w1 dd w2, lines.getLast? = some last ∧ last = w1 ++ dd ++ w2 ∧
       (∀ c ∈ w1, isWs c = true) ∧ dd ≠ [] ∧ (∀ c ∈ dd, isDig c = true) ∧
       (∀ c ∈ w2, isWs c = true)) := by
  constructor
  · intro hb
    simp only [emptyCaseB, Bool.and_eq_true, decide_eq_true_eq,
      List.all_eq_true] at hb
    obtain ⟨⟨hlen, hall⟩, hlast⟩ := hb
    rcases h : lines.getLast? with - | last
    · rw [h] at hlast
      cases hlast
    · rw [h] at hlast
      obtain ⟨w1, dd, w2, hdec, hw1, hdd, hdig, hw2⟩ :=
        (isBareNumberLine_iff last).mp hlast
      refine ⟨hlen, ?_, last, w1, dd, w2, rfl, hdec, hw1, hdd, hdig, hw2⟩
      intro l hl c hc
      have := hall l hl
      simp only [isWsLine, List.all_eq_true] at this
      exact this c hc
  · rintro ⟨hlen, hall, last, w1, dd, w2, hl, hdec, hw1, hdd, hdig, hw2⟩
    simp only [emptyCaseB, Bool.and_eq_true, decide_eq_true_eq,
      List.all_eq_true, hl]
    refine ⟨⟨hlen, fun l hl2 => ?_⟩, ?_⟩
    · simp only [isWsLine, List.all_eq_true]
      exact hall l hl2
    · exact (isBareNumberLine_iff last).mpr ⟨w1, dd, w2, hdec, hw1, hdd, hdig, hw2⟩

/-- Helper: `stripTrailingNumber` either leaves the string unchanged, or
removes from its end exactly a run of newlines, then spaces, then at least
one digit, then spaces. -/
theorem dig_not_space (c : Char) (h : isDig c = true) : (c == ' ') = false := by
  cases hsp : c == ' ' with
  | false => rfl
  | true =>
    have hc := eq_of_beq hsp
    subst hc
    exact absurd h (by decide)

/-- Helper: `takeWhile` keeps a head that satisfies the predicate. -/
theorem takeWhile_cons_pos {α : Type} (p : α → Bool) (x : α) (l : List α)
    (h : p x = true) : (x :: l).takeWhile p = x :: l.takeWhile p := by
  rw [List.takeWhile_cons]
  simp [h]

/-- Helper: `takeWhile` is empty on a head that fails the predicate. -/
theorem takeWhile_cons_neg {α : Type} (p : α → Bool) (x : α) (l : List α)
    (h : p x = false) : (x :: l).takeWhile p = [] := by
  rw [List.takeWhile_cons]
  simp [h]

/-- Helper: `dropWhile` keeps a list whose `takeWhile` is empty. -/
theorem dropWhile_eq_self_of_takeWhile_nil {α : Type} (p : α → Bool) (l : List α)
    (h : l.takeWhile p = []) : l.dropWhile p = l := by
  cases l with
  | nil => rfl
  | cons x t =>
    rw [List.takeWhile_cons] at h
    by_cases hx : p x = true
    · rw [if_pos hx] at h
      cases h
    · rw [List.dropWhile_cons, if_neg hx]

/-- Helper: on a string that ends in a newline run, spaces, digits and
spaces, both tests of `stripTrailingNumber` fire: the reversed string holds
digits after its leading spaces, and newlines after those digits and
spaces — so the stripper cannot return the string unchanged. -/
theorem artifact_stages (p n a d b2 : List Char)
    (hn : n ≠ []) (hnc : ∀ c ∈ n, c = '\n') (hac : ∀ c ∈ a, c = ' ')
    (hd : d ≠ []) (hdc : ∀ c ∈ d, isDig c = true) (hb2c : ∀ c ∈ b2, c = ' ') :
    (((p ++ n ++ a ++ d ++ b2).reverse.dropWhile (· == ' ')).takeWhile isDig ≠ []) ∧
    (((((p ++ n ++ a ++ d ++ b2).reverse.dropWhile (· == ' ')).dropWhile isDig).dropWhile
      (· == ' ')).takeWhile (· == '\n') ≠ []) := by
  obtain ⟨dc, dt, hdrev⟩ : ∃ c t, d.reverse = c :: t := by
    cases hdr : d.reverse with
    | nil => exact absurd (List.reverse_eq_nil_iff.mp hdr) hd
    | cons c t => exact ⟨c, t, rfl⟩
  obtain ⟨nc, nt, hnrev⟩ : ∃ c t, n.reverse = c :: t := by
    cases hnr : n.reverse with
    | nil => exact absurd (List.reverse_eq_nil_iff.mp hnr) hn
    | cons c t => exact ⟨c, t, rfl⟩
  have hdcd : isDig dc = true := by
    refine hdc dc ?_
    rw [← List.mem_reverse, hdrev]
    exact List.mem_cons_self _ _
  have hncn : nc = '\n' := by
    refine hnc nc ?_
    rw [← List.mem_reverse, hnrev]
    exact List.mem_cons_self _ _
  have e0 : (p ++ n ++ a ++ d ++ b2).reverse =
      b2.reverse ++ (d.reverse ++ (a.reverse ++ (n.reverse ++ p.reverse))) := by
    simp [List.reverse_append, List.append_assoc]
  have e1 : (p ++ n ++ a ++ d ++ b2).reverse.dropWhile (· == ' ') =
      d.reverse ++ (a.reverse ++ (n.reverse ++ p.reverse)) := by
    rw [e0, dropWhile_append_of_all (· == ' ') b2.reverse _
      (fun c hc => by rw [List.mem_reverse] at hc; rw [hb2c c hc]; decide)]
    apply dropWhile_eq_self_of_takeWhile_nil
    rw [hdrev, List.cons_append]
    exact takeWhile_cons_neg _ _ _ (dig_not_space dc hdcd)
  have e2 : ((p ++ n ++ a ++ d ++ b2).reverse.dropWhile (· == ' ')).dropWhile isDig =
      a.reverse ++ (n.reverse ++ p.reverse) := by
    rw [e1, dropWhile_append_of_all isDig d.reverse _
      (fun c hc => by rw [List.mem_reverse] at hc; exact hdc c hc)]
    apply dropWhile_eq_self_of_takeWhile_nil
    cases har : a.reverse with
    | nil =>
      rw [List.nil_append, hnrev, List.cons_append]
      refine takeWhile_cons_neg _ _ _ ?_
      rw [hncn]
      decide
    | cons ac t2 =>
      have hac' : ac = ' ' := by
        refine hac ac ?_
        rw [← List.mem_reverse, har]
        exact List.mem_cons_self _ _
      rw [List.cons_append]
      refine takeWhile_cons_neg _ _ _ ?_
      rw [hac']
      decide
  have e3 : (((p ++ n ++ a ++ d ++ b2).reverse.dropWhile (· == ' ')).dropWhile
      isDig).dropWhile (· == ' ') = n.reverse ++ p.reverse := by
    rw [e2, dropWhile_append_of_all (· == ' ') a.reverse _
      (fun c hc => by rw [List.mem_reverse] at hc; rw [hac c hc]; decide)]
    apply dropWhile_eq_self_of_takeWhile_nil
    rw [hnrev, List.cons_append]
    refine takeWhile_cons_neg _ _ _ ?_
    rw [hncn]
    decide
  constructor
  · rw [e1, hdrev, List.cons_append, takeWhile_cons_pos _ _ _ hdcd]
    simp
  · rw [e3, hnrev, List.cons_append, takeWhile_cons_pos _ _ _ (by rw [hncn]; decide)]
    simp

/-- Helper: `stripTrailingNumber` leaves the string unchanged exactly when
no trailing sequence-number artifact is present; when one is present, it
removes from the end exactly a run of newlines, then spaces, then at least
one digit, then spaces. -/
theorem stripTrailingNumber_spec (s : List Char) :
    (¬ hasTrailingNumberArtifact s ∧ stripTrailingNumber s = s) ∨
    (hasTrailingNumberArtifact s ∧
      ∃ n a d b2, s = stripTrailingNumber s ++ n ++ a ++ d ++ b2 ∧
        n ≠ [] ∧ (∀ c ∈ n, c = '\n') ∧ (∀ c ∈ a, c = ' ') ∧
        d ≠ [] ∧ (∀ c ∈ d, isDig c = true) ∧ (∀ c ∈ b2, c = ' ')) := by
  by_cases h1 : (s.reverse.dropWhile (· == ' ')).takeWhile isDig = []
  · left
    refine ⟨?_, by simp [stripTrailingNumber, List.isEmpty_iff, h1]⟩
    rintro ⟨p, n, a, d, b2, rfl, hn, hnc, hac, hd, hdc, hb2c⟩
    exact (artifact_stages p n a d b2 hn hnc hac hd hdc hb2c).1 h1
  · by_cases h2 : (((s.reverse.dropWhile (· == ' ')).dropWhile isDig).dropWhile
        (· == ' ')).takeWhile (· == '\n') = []
    · left
      refine ⟨?_, by simp [stripTrailingNumber, List.isEmpty_iff, h1, h2]⟩
      rintro ⟨p, n, a, d, b2, rfl, hn, hnc, hac, hd, hdc, hb2c⟩
      exact (artifact_stages p n a d b2 hn hnc hac hd hdc hb2c).2 h2
    · right
      have hres : stripTrailingNumber s =
          ((((s.reverse.dropWhile (· == ' ')).dropWhile isDig).dropWhile
            (· == ' ')).dropWhile (· == '\n')).reverse := by
        simp [stripTrailingNumber, List.isEmpty_iff, h1, h2]
      have hcomb : s.reverse.takeWhile (· == ' ') ++
          ((s.reverse.dropWhile (· == ' ')).takeWhile isDig ++
           (((s.reverse.dropWhile (· == ' ')).dropWhile isDig).takeWhile (· == ' ') ++
            ((((s.reverse.dropWhile (· == ' ')).dropWhile isDig).dropWhile
                (· == ' ')).takeWhile (· == '\n') ++
             (((s.reverse.dropWhile (· == ' ')).dropWhile isDig).dropWhile
                (· == ' ')).dropWhile (· == '\n')))) = s.reverse := by
        rw [List.takeWhile_append_dropWhile, List.takeWhile_append_dropWhile,
          List.takeWhile_append_dropWhile, List.takeWhile_append_dropWhile]
      have hex : ∃ n a d b2, s = stripTrailingNumber s ++ n ++ a ++ d ++ b2 ∧
          n ≠ [] ∧ (∀ c ∈ n, c = '\n') ∧ (∀ c ∈ a, c = ' ') ∧
          d ≠ [] ∧ (∀ c ∈ d, isDig c = true) ∧ (∀ c ∈ b2, c = ' ') := by
        rw [hres]
        refine ⟨((((s.reverse.dropWhile (· == ' ')).dropWhile isDig).dropWhile
            (· == ' ')).takeWhile (· == '\n')).reverse,
          (((s.reverse.dropWhile (· == ' ')).dropWhile isDig).takeWhile (· == ' ')).reverse,
          ((s.reverse.dropWhile (· == ' ')).takeWhile isDig).reverse,
          (s.reverse.takeWhile (· == ' ')).reverse, ?_, ?_, ?_, ?_, ?_, ?_, ?_⟩
        · rw [← List.reverse_inj]
          simp only [List.reverse_append, List.reverse_reverse, List.append_assoc]
          exact hcomb.symm
        · simpa using h2
        · intro c hc
          rw [List.mem_reverse] at hc
          have h3 := List.mem_takeWhile_imp hc
          exact eq_of_beq h3
        · intro c hc
          rw [List.mem_reverse] at hc
          have h3 := List.mem_takeWhile_imp hc
          exact eq_of_beq h3
        · simpa using h1
        · intro c hc
          rw [List.mem_reverse] at hc
          exact List.mem_takeWhile_imp hc
        · intro c hc
          rw [List.mem_reverse] at hc
          have h3 := List.mem_takeWhile_imp hc
          exact eq_of_beq h3
      refine ⟨?_, hex⟩
      obtain ⟨n, a, d, b2, heq, hn, hnc, hac, hd, hdc, hb2c⟩ := hex
      exact ⟨stripTrailingNumber s, n, a, d, b2, heq, hn, hnc, hac, hd, hdc, hb2c⟩

/-- C9: in the SubRip reader, a body of at least two lines that are all
blank except a final bare-number line is stored as the empty string; any
other body is joined and whitespace-trimmed, and then, exactly when the
result carries a trailing sequence-number artifact (newlines, then spaces,
then a number, then spaces), that artifact is stripped from its end — and
exactly when it carries none, the text is kept unchanged. -/
theorem subrip_reader_text_massaging (lines : List (List Char)) :
    ((2 ≤ lines.length ∧ (∀ l ∈ lines.dropLast, ∀ c ∈ l, isWs c = true) ∧
      ∃ last w1 dd w2, lines.getLast? = some last ∧ last = w1 ++ dd ++ w2 ∧
        (∀ c ∈ w1, isWs c = true) ∧ dd ≠ [] ∧ (∀ c ∈ dd, isDig c = true) ∧
        (∀ c ∈ w2, isWs c = true)) →
      reader_prepare_text lines = []) ∧
    (¬ (2 ≤ lines.length ∧ (∀ l ∈ lines.dropLast, ∀ c ∈ l, isWs c = true) ∧
      ∃ last w1 dd w2, lines.getLast? = some last ∧ last = w1 ++ dd ++ w2 ∧
        (∀ c ∈ w1, isWs c = true) ∧ dd ≠ [] ∧ (∀ c ∈ dd, isDig c = true) ∧
        (∀ c ∈ w2, isWs c = true)) →
      ((¬ hasTrailingNumberArtifact (pyStrip lines.flatten) ∧
        reader_prepare_text lines = pyStrip lines.flatten) ∨
       (hasTrailingNumberArtifact (pyStrip lines.flatten) ∧
        ∃ n a d b2,
          pyStrip lines.flatten = reader_prepare_text lines ++ n ++ a ++ d ++ b2 ∧
          n ≠ [] ∧ (∀ c ∈ n, c = '\n') ∧ (∀ c ∈ a, c = ' ') ∧
          d ≠ [] ∧ (∀ c ∈ d, isDig c = true) ∧ (∀ c ∈ b2, c = ' ')))) := by
  constructor
  · intro h
    have hb : emptyCaseB lines = true := (emptyCaseB_iff lines).mpr h
    simp [reader_prepare_text, hb]
  · intro h
    have hb : emptyCaseB lines = false := by
      cases heq : emptyCaseB lines with
      | false => rfl
      | true => exact absurd ((emptyCaseB_iff lines).mp heq) h
    have hrw : reader_prepare_text lines = stripTrailingNumber (pyStrip lines.flatten) := by
      simp [reader_prepare_text, hb]
    rw [hrw]
    exact stripTrailingNumber_spec (pyStrip lines.flatten)

/-- Witness for C9: the degenerate body of a blank line followed by the
next entry's sequence number yields the empty subtitle text, and the
non-degenerate body `"a\n42"` — whose trimmed join ends in the artifact
`"\n42"` — has that artifact stripped, leaving `"a"`. -/
theorem subrip_reader_text_massaging_witness :
    reader_prepare_text [['\n'], ['1', '7', '\n']] = [] ∧
    reader_prepare_text [['a'], ['\n'], ['4', '2']] = ['a'] ∧
    ((¬ hasTrailingNumberArtifact (pyStrip ([['a'], ['\n'], ['4', '2']].flatten)) ∧
      reader_prepare_text [['a'], ['\n'], ['4', '2']] =
        pyStrip ([['a'], ['\n'], ['4', '2']].flatten)) ∨
     (hasTrailingNumberArtifact (pyStrip ([['a'], ['\n'], ['4', '2']].flatten)) ∧
      ∃ n a d b2,
        pyStrip ([['a'], ['\n'], ['4', '2']].flatten) =
          reader_prepare_text [['a'], ['\n'], ['4', '2']] ++ n ++ a ++ d ++ b2 ∧
        n ≠ [] ∧ (∀ c ∈ n, c = '\n') ∧ (∀ c ∈ a, c = ' ') ∧
        d ≠ [] ∧ (∀ c ∈ d, isDig c = true) ∧ (∀ c ∈ b2, c = ' '))) :=
  ⟨(subrip_reader_text_massaging [['\n'], ['1', '7', '\n']]).1
    ⟨by decide, by decide,
     ['1', '7', '\n'], [], ['1', '7'], ['\n'], by decide, rfl,
     by decide, by decide, by decide, by decide⟩,
   by decide,
   (subrip_reader_text_massaging [['a'], ['\n'], ['4', '2']]).2
    (fun hcon => absurd (hcon.2.1 ['a'] (by decide) 'a' (by decide)) (by decide))⟩

/-- Helper: a digit group consumes at least one character. -/
theorem expectDigits_length {maxN : ℕ} {s g r : List Char}
    (h : expectDigits maxN s = some (g, r)) : r.length < s.length := by
  unfold expectDigits at h
  by_cases he : ((s.takeWhile isDig).take maxN).isEmpty = true
  · rw [if_pos he] at h
    cases h
  · rw [if_neg he] at h
    injection h with h
    cases h
    have hne : (s.takeWhile isDig).take maxN ≠ [] := by
      simpa [List.isEmpty_iff] using he
    have hlen1 : 1 ≤ ((s.takeWhile isDig).take maxN).length := by
      cases hl : (s.takeWhile isDig).take maxN with
      | nil => exact absurd hl hne
      | cons a t => simp
    have hlen2 : ((s.takeWhile isDig).take maxN).length ≤ s.length := by
      have t1 : ((s.takeWhile isDig).take maxN).length ≤ (s.takeWhile isDig).length :=
        (List.take_sublist _ _).length_le
      have t2 : (s.takeWhile isDig).length ≤ s.length :=
        (List.takeWhile_sublist _).length_le
      omega
    simp only [List.length_drop]
    omega

/-- Helper: a successful `TIMESTAMP` match consumes at least one character,
so the scan loop's remaining input always shrinks. -/
theorem matchTimestampAt_length {s r : List Char}
    (h : matchTimestampAt s = some r) : r.length < s.length := by
  unfold matchTimestampAt at h
  cases h1 : expectDigits 2 s with
  | none => rw [h1] at h; cases h
  | some p1 =>
    obtain ⟨g1, r1⟩ := p1
    rw [h1] at h
    dsimp only at h
    cases r1 with
    | nil => cases h
    | cons c1 r2 =>
      dsimp only at h
      by_cases hc1 : (c1 == ':') = true
      · rw [if_pos hc1] at h
        cases h2 : expectDigits 2 r2 with
        | none => rw [h2] at h; cases h
        | some p2 =>
          obtain ⟨g2, r3⟩ := p2
          rw [h2] at h
          dsimp only at h
          cases r3 with
          | nil => cases h
          | cons c2 r4 =>
            dsimp only at h
            by_cases hc2 : (c2 == ':') = true
            · rw [if_pos hc2] at h
              cases h3 : expectDigits 2 r4 with
              | none => rw [h3] at h; cases h
              | some p3 =>
                obtain ⟨g3, r5⟩ := p3
                rw [h3] at h
                dsimp only at h
                cases r5 with
                | nil => cases h
                | cons c3 r6 =>
                  dsimp only at h
                  by_cases hc3 : (c3 == '.' || c3 == ',') = true
                  · rw [if_pos hc3] at h
                    cases h4 : expectDigits 3 r6 with
                    | none => rw [h4] at h; cases h
                    | some p4 =>
                      obtain ⟨g4, r7⟩ := p4
                      rw [h4] at h
                      dsimp only at h
                      injection h with h
                      cases h
                      have e4 := expectDigits_length h4
                      have e3 := expectDigits_length h3
                      have e2 := expectDigits_length h2
                      have e1 := expectDigits_length h1
                      simp only [List.length_cons] at e1 e2 e3 e4 ⊢
                      omega
                  · rw [if_neg hc3] at h
                    cases h
            · rw [if_neg hc2] at h
              cases h
      · rw [if_neg hc1] at h
        cases h

/-- Helper: any fuel at least the input length gives the same match count,
so `countTimestampMatches`' fuel choice is sufficient. -/
theorem countTSGo_eq_of_le (fuel : ℕ) (fuel' : ℕ) (s : List Char)
    (h : s.length ≤ fuel) (h' : s.length ≤ fuel') :
    countTSGo fuel s = countTSGo fuel' s := by
  induction fuel generalizing s fuel' with
  | zero =>
    have hz : s = [] := List.length_eq_zero.mp (Nat.le_zero.mp h)
    subst hz
    cases fuel' <;> rfl
  | succ fuel ih =>
    cases s with
    | nil => cases fuel' <;> rfl
    | cons c rest =>
      cases fuel' with
      | zero => simp at h'
      | succ fuel'' =>
        simp only [countTSGo]
        cases hm : matchTimestampAt (c :: rest) with
        | some r =>
          dsimp only
          have hr := matchTimestampAt_length hm
          simp only [List.length_cons] at h h' hr
          rw [ih (fuel'') r (by omega) (by omega)]
        | none =>
          dsimp only
          simp only [List.length_cons] at h h'
          exact ih fuel'' rest (by omega) (by omega)

/-- C8: `SubripFormat.guess_format` returns no match for text containing a
SubStation section marker or starting (after lstrip) with `WEBVTT`; for all
other text it answers the SubRip identifier exactly when some line holds
exactly two matches of the SubRip timestamp pattern. -/
theorem subrip_guess_format_heuristic (text : List Char) :
    ((containsSub ("[Script Info]".toList) text = true ∨
      containsSub ("[V4+ Styles]".toList) text = true ∨
      ("WEBVTT".toList).isPrefixOf (text.dropWhile isWs) = true) →
      guess_format_srt text = none) ∧
    (containsSub ("[Script Info]".toList) text = false →
     containsSub ("[V4+ Styles]".toList) text = false →
     ("WEBVTT".toList).isPrefixOf (text.dropWhile isWs) = false →
      (guess_format_srt text = some "srt" ↔
        ∃ line ∈ splitlines text, countTimestampMatches line = 2)) := by
  constructor
  · rintro (h | h | h)
    · unfold guess_format_srt
      rw [h]
      simp
    · unfold guess_format_srt
      rw [h]
      simp
    · unfold guess_format_srt
      rw [h]
      cases h1 : containsSub ("[Script Info]".toList) text <;>
        cases h2 : containsSub ("[V4+ Styles]".toList) text <;> simp
  · intro h1 h2 h3
    have hred : guess_format_srt text =
        (if (splitlines text).any (fun line => countTimestampMatches line == 2) then
          some "srt" else none) := by
      unfold guess_format_srt
      rw [h1, h2, h3]
      simp
    rw [hred]
    cases h4 : (splitlines text).any (fun line => countTimestampMatches line == 2)
    · rw [List.any_eq_false] at h4
      simp only [Bool.false_eq_true, if_false]
      constructor
      · intro hco
        cases hco
      · rintro ⟨line, hmem, hcnt⟩
        have := h4 _ hmem
        simp [hcnt] at this
    · simp only [if_pos]
      rw [List.any_eq_true] at h4
      obtain ⟨line, hmem, hcnt⟩ := h4
      simp only [true_iff]
      exact ⟨line, hmem, by simpa using hcnt⟩

/-- Witness for C8: a small SubRip fragment is recognized. -/
theorem subrip_guess_format_heuristic_witness :
    guess_format_srt ("1\n00:00:01,000 --> 00:00:02,000\nHi".toList) = some "srt" :=
  ((subrip_guess_format_heuristic
      ("1\n00:00:01,000 --> 00:00:02,000\nHi".toList)).2
    (by decide) (by decide) (by decide)).mpr
    ⟨"00:00:01,000 --> 00:00:02,000".toList, by decide, by decide⟩

/-- Helper: the run loop aborts with `ContentNotUsable` exactly when some
run is in drawing mode. -/
theorem collectBody_none_iff (ap : Bool) (runs : List (List Char × SSAStyle)) :
    collectBody ap runs = none ↔ runs.any (fun r => r.2.drawing) = true := by
  induction runs with
  | nil => simp [collectBody]
  | cons r rest ih =>
    obtain ⟨frag, sty⟩ := r
    cases hd : sty.drawing
    · cases hc : collectBody ap rest with
      | none =>
        simp [collectBody, hd, hc, ih.mp hc]
      | some l =>
        have hfa : rest.any (fun r => r.2.drawing) = false := by
          cases ha : rest.any (fun r => r.2.drawing)
          · rfl
          · rw [ih.mpr ha] at hc
            cases hc
        simp [collectBody, hd, hc, hfa]
    · simp [collectBody, hd]

/-- Helper: `prepare_text` of the writer raises exactly on bodies with a
drawing run. -/
theorem writer_prepare_text_none_iff (ap : Bool) (runs : List (List Char × SSAStyle)) :
    writer_prepare_text ap runs = none ↔ runs.any (fun r => r.2.drawing) = true := by
  unfold writer_prepare_text
  cases hc : collectBody ap runs with
  | none => simp [(collectBody_none_iff ap runs).mp hc]
  | some l =>
    have hfa : runs.any (fun r => r.2.drawing) = false := by
      cases ha : runs.any (fun r => r.2.drawing)
      · rfl
      · rw [(collectBody_none_iff ap runs).mpr ha] at hc
        cases hc
    simp [hfa]

/-- Helper: the writer loop emits exactly the events without drawing runs,
numbering them consecutively from its counter. -/
theorem writeLinesGo_eq (ap : Bool) (n : ℕ) (l : List WriterEvent) :
    writeLinesGo ap n l =
      (numberFrom n (l.filter (fun e => !(e.runs.any (fun r => r.2.drawing))))).map
        (fun p => (p.1, (ms_to_timestamp_srt p.2.start).1,
          (ms_to_timestamp_srt p.2.«end»).1,
          (writer_prepare_text ap p.2.runs).getD [])) := by
  induction l generalizing n with
  | nil => rfl
  | cons e rest ih =>
    cases hd : e.runs.any (fun r => r.2.drawing)
    · have hs : writer_prepare_text ap e.runs ≠ none := by
        rw [Ne, writer_prepare_text_none_iff, hd]
        simp
      cases hp : writer_prepare_text ap e.runs with
      | none => exact absurd hp hs
      | some t =>
        simp only [writeLinesGo, hp, List.filter_cons, hd, Bool.not_false, if_true,
          numberFrom, List.map_cons]
        refine congrArg₂ List.cons ?_ (ih (n + 1))
        simp [hp]
    · have hp : writer_prepare_text ap e.runs = none :=
        (writer_prepare_text_none_iff ap e.runs).mpr hd
      simp only [writeLinesGo, hp, List.filter_cons, hd, Bool.not_true, if_false]
      exact ih n

/-- C1 (amended): the SubRip/WebVTT writer output is exactly the visible
entries **without any drawing run**, numbered consecutively from 1 — an
entry containing a drawing run is skipped as a whole (its non-drawing runs
are not emitted), while the rest of the conversion continues unharmed. -/
theorem writer_skips_whole_drawing_entries (applyStyles : Bool)
    (events : List WriterEvent) :
    srt_to_file applyStyles events =
      (numberFrom 1 ((events.filter (fun e => !e.isComment)).filter
        (fun e => !(e.runs.any (fun r => r.2.drawing))))).map
        (fun p => (p.1, (ms_to_timestamp_srt p.2.start).1,
          (ms_to_timestamp_srt p.2.«end»).1,
          (writer_prepare_text applyStyles p.2.runs).getD [])) :=
  writeLinesGo_eq applyStyles 1 (events.filter (fun e => !e.isComment))

/-- C1 counterexample to the claim as stated: a visible event with a
non-drawing run `"a"` and a drawing run produces **no** output entry at
all — the non-drawing run is not emitted. -/
theorem drawing_run_drops_whole_event :
    srt_to_file true [demoDrawingEvent] = [] ∧
    demoDrawingEvent.isComment = false ∧
    (['a'], ({} : SSAStyle)) ∈ demoDrawingEvent.runs ∧
    ({} : SSAStyle).drawing = false ∧
    demoDrawingEvent.runs.any (fun r => r.2.drawing) = true := by
  refine ⟨rfl, rfl, by simp [demoDrawingEvent], rfl, by simp [demoDrawingEvent]⟩

/-- C6: the comparison operators of `SSAEvent` depend only on the
`(start, end)` pair — `__eq__` holds iff both endpoints agree, `__lt__` is
the lexicographic order on `(start, end)` (likewise `__le__`, `__gt__`,
`__ge__`), `__ne__` is the negation of `__eq__` — while the separate
deep-equality `equals` holds iff every field agrees. -/
theorem event_comparisons_use_start_end_only (a b : SSAEvent) :
    (eventEqOp a b = true ↔ (a.start = b.start ∧ a.«end» = b.«end»)) ∧
    (eventNeOp a b = true ↔ ¬(a.start = b.start ∧ a.«end» = b.«end»)) ∧
    (eventLtOp a b = true ↔
      Prod.Lex (· < ·) (· < ·) (a.start, a.«end») (b.start, b.«end»)) ∧
    (eventLeOp a b = true ↔
      Prod.Lex (· < ·) (· ≤ ·) (a.start, a.«end») (b.start, b.«end»)) ∧
    (eventGtOp a b = true ↔
      Prod.Lex (· < ·) (· < ·) (b.start, b.«end») (a.start, a.«end»)) ∧
    (eventGeOp a b = true ↔
      Prod.Lex (· < ·) (· ≤ ·) (b.start, b.«end») (a.start, a.«end»)) ∧
    (eventEquals a b = true ↔ a = b) := by
  refine ⟨?_, ?_, ?_, ?_, ?_, ?_, ?_⟩
  · simp [eventEqOp]
  · simp only [eventNeOp, Bool.or_eq_true, bne_iff_ne, ne_eq, not_and_or]
  · simp [eventLtOp, Prod.lex_iff]
  · simp [eventLeOp, Prod.lex_iff]
  · simp [eventGtOp, Prod.lex_iff]
    omega
  · simp [eventGeOp, Prod.lex_iff]
    omega
  · cases a; cases b
    simp [eventEquals, SSAEvent.mk.injEq, and_assoc]

/-- C7: for every non-negative millisecond value, `ms_to_times` returns a
normalized tuple `(h, m, s, ms_part)` with `0 ≤ ms_part < 1000`,
`0 ≤ s < 60`, `0 ≤ m < 60` that recombines to the input rounded to the
nearest integer millisecond. -/
theorem ms_to_times_decomposes (q : ℚ) (_hq : 0 ≤ q) :
    0 ≤ (ms_to_times q).2.2.2 ∧ (ms_to_times q).2.2.2 < 1000 ∧
    0 ≤ (ms_to_times q).2.2.1 ∧ (ms_to_times q).2.2.1 < 60 ∧
    0 ≤ (ms_to_times q).2.1 ∧ (ms_to_times q).2.1 < 60 ∧
    (ms_to_times q).1 * 3600000 + (ms_to_times q).2.1 * 60000 +
      (ms_to_times q).2.2.1 * 1000 + (ms_to_times q).2.2.2 = round q := by
  simp only [ms_to_times, msToTimesInt]
  omega

/-- Witness for C7 at the concrete time 1h 2m 3s 4ms. -/
theorem ms_to_times_decomposes_witness :
    (0 : ℚ) ≤ 3723004 ∧
    (0 ≤ (ms_to_times 3723004).2.2.2 ∧ (ms_to_times 3723004).2.2.2 < 1000 ∧
     0 ≤ (ms_to_times 3723004).2.2.1 ∧ (ms_to_times 3723004).2.2.1 < 60 ∧
     0 ≤ (ms_to_times 3723004).2.1 ∧ (ms_to_times 3723004).2.1 < 60 ∧
     (ms_to_times 3723004).1 * 3600000 + (ms_to_times 3723004).2.1 * 60000 +
       (ms_to_times 3723004).2.2.1 * 1000 + (ms_to_times 3723004).2.2.2 =
         round (3723004 : ℚ)) :=
  ⟨by norm_num, ms_to_times_decomposes 3723004 (by norm_num)⟩

/-- C2 (code bug): on the WebVTT timestamp `0:00:01.50` — regex groups
`("0:", "00", "01", "50")` — `WebVTTFormat.timestamp_to_ms` returns 1050 ms,
because the 2-digit fraction is used raw, while the scaling rule
`frac * 10 ^ (3 - digits)` of the generic parser (and WebVTT's reading of
`.50` as half a second) demands 1500 ms. -/
theorem webvtt_two_digit_fraction_not_scaled :
    webvtt_timestamp_to_ms (some ['0', ':']) ['0', '0'] ['0', '1'] ['5', '0'] = 1050 ∧
    timestamp_to_ms [['0'], ['0', '0'], ['0', '1'], ['5', '0']] = some 1500 ∧
    (1050 : ℤ) ≠ 1500 := by
  refine ⟨?_, by decide, by decide⟩
  have d1 : digitsToNat (pyStripChar ':' ['0', ':']) = 0 := by decide
  have d2 : digitsToNat ['0', '0'] = 0 := by decide
  have d3 : digitsToNat ['0', '1'] = 1 := by decide
  have d4 : digitsToNat ['5', '0'] = 50 := by decide
  simp only [webvtt_timestamp_to_ms]
  rw [d1, d2, d3, d4]
  have h := times_to_ms_int 0 0 1 50
  norm_num at h ⊢
  exact h

/-- C4 (amended): `SubripFormat.ms_to_timestamp` never fails: it renders
`HH:MM:SS,mmm` of the input clamped into `[0, MAX_REPRESENTABLE_TIME]`, and
it emits the recoverable overflow warning exactly when the input exceeds
`MAX_REPRESENTABLE_TIME` — negative inputs are clamped to 0 silently. The
WebVTT stringifier is the same string with `','` replaced by `'.'` and the
same warning flag. -/
theorem ms_to_timestamp_clamps (ms : ℤ) :
    ∃ t : ℤ, t = max 0 (min ms MAX_REPRESENTABLE_TIME) ∧
      0 ≤ t ∧ t ≤ MAX_REPRESENTABLE_TIME ∧
      ms_to_timestamp_srt ms =
        (renderSrtTimestamp (msToTimesInt t), decide (MAX_REPRESENTABLE_TIME < ms)) ∧
      ms_to_timestamp_vtt ms =
        ((renderSrtTimestamp (msToTimesInt t)).map (fun c => if c == ',' then '.' else c),
          decide (MAX_REPRESENTABLE_TIME < ms)) := by
  have hM := MAX_REPRESENTABLE_TIME_val
  have hclamp : (if MAX_REPRESENTABLE_TIME < (if ms < 0 then 0 else ms)
      then MAX_REPRESENTABLE_TIME else (if ms < 0 then 0 else ms)) =
      max 0 (min ms MAX_REPRESENTABLE_TIME) := by
    rw [hM]; split_ifs <;> omega
  have hwarn : decide (MAX_REPRESENTABLE_TIME < (if ms < 0 then 0 else ms)) =
      decide (MAX_REPRESENTABLE_TIME < ms) := by
    simp only [decide_eq_decide]
    rw [hM]; split_ifs <;> omega
  refine ⟨max 0 (min ms MAX_REPRESENTABLE_TIME), rfl, le_max_left _ _, ?_, ?_, ?_⟩
  · rw [hM]; omega
  · simp only [ms_to_timestamp_srt, hclamp, hwarn]
  · simp only [ms_to_timestamp_vtt, ms_to_timestamp_srt, hclamp, hwarn]

/-- Witness for C4 at 400000000 ms (above the maximum: warning set). -/
theorem ms_to_timestamp_clamps_witness :
    ∃ t : ℤ, t = max 0 (min 400000000 MAX_REPRESENTABLE_TIME) ∧
      0 ≤ t ∧ t ≤ MAX_REPRESENTABLE_TIME ∧
      ms_to_timestamp_srt 400000000 =
        (renderSrtTimestamp (msToTimesInt t), decide (MAX_REPRESENTABLE_TIME < 400000000)) ∧
      ms_to_timestamp_vtt 400000000 =
        ((renderSrtTimestamp (msToTimesInt t)).map (fun c => if c == ',' then '.' else c),
          decide (MAX_REPRESENTABLE_TIME < 400000000)) :=
  ms_to_timestamp_clamps 400000000

/-- C4 counterexample to the claim as stated: the input −1 ms is out of
range and gets clamped (the output is the rendering of 0 ms), yet no
warning is emitted. -/
theorem negative_clamp_is_silent :
    (ms_to_timestamp_srt (-1)).1 = (ms_to_timestamp_srt 0).1 ∧
    (ms_to_timestamp_srt (-1)).2 = false ∧ (-1 : ℤ) < 0 := by
  refine ⟨?_, ?_, by norm_num⟩ <;>
    simp [ms_to_timestamp_srt, MAX_REPRESENTABLE_TIME_val]

/-- C10: a time-based `SSAEvent.shift` adds the same millisecond delta to
both `start` and `end` and clamps each at 0, so neither endpoint is ever
negative afterwards. -/
theorem shift_clamps_to_zero (e : SSAEvent) (h m s ms : ℚ) :
    (shiftEvent e h m s ms).start = max (e.start + times_to_ms h m s ms) 0 ∧
    (shiftEvent e h m s ms).«end» = max (e.«end» + times_to_ms h m s ms) 0 ∧
    0 ≤ (shiftEvent e h m s ms).start ∧ 0 ≤ (shiftEvent e h m s ms).«end» := by
  refine ⟨rfl, rfl, ?_, ?_⟩ <;> simp [shiftEvent]

end Pysubs3
